import Mathlib

/-!
# Verification of the layered-resolution engine and materialization pipeline

A shallow embedding of the core of the `pixi-rust` repository:

* `crates/pixi_manifest/src/feature.rs` — `FeatureName`, `Feature` and its
  layer-merging accessors (`dependencies`, `pypi_dependencies`,
  `activation_scripts`, `activation_env`);
* `src/environment.rs` — `LockedEnvironmentHash`, `EnvironmentFile` reading,
  `verify_prefix_location_unchanged`, `PythonStatus` and `update_prefix_pypi`.

Rust `IndexMap`s are modelled as association lists that preserve insertion
order: `extend` overwrites the value of an existing key in place and appends
new keys, exactly like `IndexMap::extend`.
-/

namespace PixiRust

/-! ## Insertion-ordered map model (`indexmap::IndexMap`) -/

section IndexMapModel

variable {α : Type} {β : Type} [DecidableEq α]

/-- First-match lookup in an association list, the model of `IndexMap::get`. -/
def idxLookup : List (α × β) → α → Option β
  | [], _ => none
  | (a, b) :: m, k => if a = k then some b else idxLookup m k

/-- Key-membership test, the model of `IndexMap::contains_key`. -/
def idxMem (m : List (α × β)) (k : α) : Bool :=
  (idxLookup m k).isSome

/-- Single-key insert with `IndexMap` semantics: an existing key keeps its
position but receives the new value; a fresh key is appended at the end. -/
def idxInsert (m : List (α × β)) (k : α) (v : β) : List (α × β) :=
  if idxMem m k then m.map (fun p => if p.1 = k then (k, v) else p)
  else m ++ [(k, v)]

/-- The model of `IndexMap::extend`: fold `idxInsert` over the second map. -/
def idxExtend (m other : List (α × β)) : List (α × β) :=
  other.foldl (fun acc p => idxInsert acc p.1 p.2) m

/-- The keys of an association list are pairwise distinct (the `IndexMap`
invariant: "dependency maps have unique keys"). -/
def nodupKeys (m : List (α × β)) : Prop :=
  (m.map Prod.fst).Nodup

@[simp]
theorem idxLookup_nil (k : α) : idxLookup ([] : List (α × β)) k = none := rfl

@[simp]
theorem idxLookup_cons (a : α) (b : β) (m : List (α × β)) (k : α) :
    idxLookup ((a, b) :: m) k = if a = k then some b else idxLookup m k := rfl

theorem idxLookup_append (m n : List (α × β)) (k : α) :
    idxLookup (m ++ n) k =
      match idxLookup m k with
      | some v => some v
      | none => idxLookup n k := by
  induction m with
  | nil => simp
  | cons p m ih =>
    obtain ⟨a, b⟩ := p
    by_cases h : a = k <;> simp [h, ih]

theorem idxLookup_mem_keys {m : List (α × β)} {k : α} {v : β}
    (h : idxLookup m k = some v) : k ∈ m.map Prod.fst := by
  induction m with
  | nil => simp at h
  | cons p m ih =>
    obtain ⟨a, b⟩ := p
    by_cases hak : a = k
    · simp [hak]
    · simp [hak] at h
      simp [ih h]

theorem idxLookup_eq_none_of_not_mem {m : List (α × β)} {k : α}
    (h : k ∉ m.map Prod.fst) : idxLookup m k = none := by
  cases hl : idxLookup m k with
  | none => rfl
  | some v => exact absurd (idxLookup_mem_keys hl) h

theorem idxMem_cons (a : α) (b : β) (m : List (α × β)) (k : α) :
    idxMem ((a, b) :: m) k = if a = k then true else idxMem m k := by
  by_cases h : a = k <;> simp [idxMem, h]

/-- Replacing the value at key `k` throughout affects exactly key `k`. -/
theorem idxLookup_map_replace (m : List (α × β)) (k k' : α) (v : β) :
    idxLookup (m.map (fun p => if p.1 = k then (k, v) else p)) k' =
      if k' = k then (if idxMem m k then some v else none)
      else idxLookup m k' := by
  induction m with
  | nil => by_cases h : k' = k <;> simp [h, idxMem]
  | cons p m ih =>
    obtain ⟨a, b⟩ := p
    by_cases hak : a = k
    · subst hak
      by_cases hk' : k' = a
      · subst hk'
        simp [idxMem_cons]
      · have hne : ¬a = k' := fun h => hk' h.symm
        simp [idxMem_cons, hne, hk', ih]
    · by_cases hk' : k' = a
      · subst hk'
        simp [hak]
      · have hne : ¬a = k' := fun h => hk' h.symm
        simp [hak, hne, ih, idxMem_cons]

/-- Lookup after a single `IndexMap` insert. -/
theorem idxLookup_idxInsert (m : List (α × β)) (k k' : α) (v : β) :
    idxLookup (idxInsert m k v) k' =
      if k' = k then some v else idxLookup m k' := by
  unfold idxInsert
  by_cases hmem : idxMem m k
  · rw [if_pos hmem, idxLookup_map_replace]
    by_cases h : k' = k <;> simp [h, hmem]
  · rw [if_neg hmem, idxLookup_append]
    by_cases h : k' = k
    · subst h
      have : idxLookup m k' = none := by
        unfold idxMem at hmem
        cases hl : idxLookup m k' with
        | none => rfl
        | some v => rw [hl] at hmem; simp at hmem
      simp [this]
    · have hne : ¬k = k' := fun hh => h hh.symm
      cases hl : idxLookup m k' with
      | none => simp [hne, h]
      | some w => simp [h]

/-- Lookup after `IndexMap::extend`: a key present in the extension (which is
assumed key-unique, as every `IndexMap` is) takes its value from the
extension, every other key keeps its old value. -/
theorem idxLookup_idxExtend (m o : List (α × β)) (k : α)
    (ho : nodupKeys o) :
    idxLookup (idxExtend m o) k =
      match idxLookup o k with
      | some v => some v
      | none => idxLookup m k := by
  induction o generalizing m with
  | nil => simp [idxExtend]
  | cons p o ih =>
    obtain ⟨a, b⟩ := p
    have hcons : (a :: o.map Prod.fst).Nodup := ho
    have ha : a ∉ o.map Prod.fst := (List.nodup_cons.mp hcons).1
    have ho' : nodupKeys o := (List.nodup_cons.mp hcons).2
    show idxLookup (idxExtend (idxInsert m a b) o) k = _
    rw [ih (idxInsert m a b) ho']
    cases hl : idxLookup o k with
    | some v =>
      have hak : ¬a = k := by
        intro h
        subst h
        exact ha (idxLookup_mem_keys hl)
      simp [hak, hl]
    | none =>
      by_cases hak : a = k
      · subst hak
        simp [idxLookup_idxInsert, hl]
      · have : ¬k = a := fun h => hak h.symm
        simp [hak, this, idxLookup_idxInsert, hl]

end IndexMapModel

/-! ## `std::borrow::Cow` and the layer-merge fold of `feature.rs` -/

/-- Model of `std::borrow::Cow`: either a borrowed view into existing storage
or a freshly owned value. -/
inductive Cow (α : Type) where
  | borrowed (val : α)
  | owned (val : α)
deriving DecidableEq

/-- The payload of a `Cow`, regardless of variant. -/
def Cow.val {α : Type} : Cow α → α
  | .borrowed v => v
  | .owned v => v

section MergeFold

variable {α : Type} {β : Type} [DecidableEq α]

/-- The accumulation step of the folds in `Feature::dependencies` and
`Feature::pypi_dependencies`: the first contributing map is kept as a
borrowed `Cow`; every further map is merged by `acc.to_mut().extend(..)`,
which turns the accumulator into an owned value. -/
def mergeStep (acc : Option (Cow (List (α × β)))) (deps : List (α × β)) :
    Option (Cow (List (α × β))) :=
  match acc with
  | none => some (.borrowed deps)
  | some a => some (.owned (idxExtend a.val deps))

/-- The whole fold: merge a list of contributing layer maps, ordered from
least specific to most specific, into an optional `Cow` map. -/
def mergeCow (ls : List (List (α × β))) : Option (Cow (List (α × β))) :=
  ls.foldl mergeStep none

/-- Value of key `k` in the *last* layer of `ls` that contains it
(`ls` ordered least-specific first, so the last defining layer is the most
specific one). -/
def lastLookup : List (List (α × β)) → α → Option β
  | [], _ => none
  | m :: ls, k =>
    match lastLookup ls k with
    | some v => some v
    | none => idxLookup m k

/-- Value of key `k` in the *first* layer of `ls` that contains it
(`ls` ordered most-specific first). -/
def firstLookup : List (List (α × β)) → α → Option β
  | [], _ => none
  | m :: ls, k =>
    match idxLookup m k with
    | some v => some v
    | none => firstLookup ls k

theorem lastLookup_append (xs ys : List (List (α × β))) (k : α) :
    lastLookup (xs ++ ys) k =
      match lastLookup ys k with
      | some v => some v
      | none => lastLookup xs k := by
  induction xs with
  | nil =>
    cases h : lastLookup ys k <;> simp [lastLookup, h]
  | cons m xs ih =>
    rw [List.cons_append, lastLookup, ih]
    cases hy : lastLookup ys k <;> cases hx : lastLookup xs k <;>
      simp [lastLookup, hy, hx]

/-- On a reversed layer list, last-defining-layer lookup becomes
first-defining-layer lookup. -/
theorem lastLookup_reverse (ls : List (List (α × β))) (k : α) :
    lastLookup ls.reverse k = firstLookup ls k := by
  induction ls with
  | nil => rfl
  | cons m ls ih =>
    rw [List.reverse_cons, lastLookup_append, ih]
    cases hm : idxLookup m k <;> simp [lastLookup, firstLookup, hm]

/-- Folding `idxExtend` over key-unique layers: each key ends up with the
value from the last layer that contains it. -/
theorem idxLookup_foldl_idxExtend (ls : List (List (α × β)))
    (m : List (α × β)) (k : α) (h : ∀ x ∈ ls, nodupKeys x) :
    idxLookup (ls.foldl idxExtend m) k =
      match lastLookup ls k with
      | some v => some v
      | none => idxLookup m k := by
  induction ls generalizing m with
  | nil => simp [lastLookup]
  | cons m' ls ih =>
    have hm' : nodupKeys m' := h m' (List.mem_cons_self m' ls)
    have hls : ∀ x ∈ ls, nodupKeys x := fun x hx => h x (List.mem_cons_of_mem m' hx)
    show idxLookup (ls.foldl idxExtend (idxExtend m m')) k = _
    rw [ih (idxExtend m m') hls]
    cases hl : lastLookup ls k with
    | some v => simp [lastLookup, hl]
    | none =>
      rw [idxLookup_idxExtend m m' k hm']
      cases hm : idxLookup m' k <;> simp [lastLookup, hl, hm]

/-- The payload computed by `mergeCow`. -/
theorem mergeCow_val (ls : List (List (α × β))) :
    (mergeCow ls).map Cow.val =
      match ls with
      | [] => none
      | m :: rest => some (rest.foldl idxExtend m) := by
  cases ls with
  | nil => rfl
  | cons m rest =>
    show ((rest.foldl mergeStep (some (.borrowed m))).map Cow.val) = _
    have aux : ∀ (xs : List (List (α × β))) (c : Cow (List (α × β))),
        (xs.foldl mergeStep (some c)).map Cow.val = some (xs.foldl idxExtend c.val) := by
      intro xs
      induction xs with
      | nil => intro c; rfl
      | cons x xs ih =>
        intro c
        show (xs.foldl mergeStep (some (.owned (idxExtend c.val x)))).map Cow.val = _
        rw [ih (.owned (idxExtend c.val x))]
        rfl
    exact aux rest (.borrowed m)

/-- `mergeCow` returns "no data" exactly on the empty layer list. -/
theorem mergeCow_eq_none_iff (ls : List (List (α × β))) :
    mergeCow ls = none ↔ ls = [] := by
  cases ls with
  | nil => simp [mergeCow]
  | cons m rest =>
    have h := mergeCow_val (m :: rest)
    constructor
    · intro hnone
      rw [hnone] at h
      simp at h
    · intro h
      exact absurd h (by simp)

/-- A single contributing layer is returned as a borrowed reference. -/
theorem mergeCow_singleton (m : List (α × β)) :
    mergeCow [m] = some (.borrowed m) := rfl

/-- With at least two contributing layers the result is a freshly owned map. -/
theorem mergeCow_owned (m₁ m₂ : List (α × β)) (rest : List (List (α × β))) :
    ∃ d, mergeCow (m₁ :: m₂ :: rest) = some (.owned d) := by
  show ∃ d, rest.foldl mergeStep (some (.owned (idxExtend m₁ m₂))) = some (.owned d)
  generalize idxExtend m₁ m₂ = a
  induction rest generalizing a with
  | nil => exact ⟨a, rfl⟩
  | cons x xs ih =>
    show ∃ d, xs.foldl mergeStep (some (.owned (idxExtend a x))) = some (.owned d)
    exact ih (idxExtend a x)

/-- Lookup in the merged map: the most specific contributing layer wins
(`ls` is ordered least-specific first, as in the folds of `feature.rs`). -/
theorem mergeCow_lookup (ls : List (List (α × β))) (c : Cow (List (α × β)))
    (k : α) (h : ∀ x ∈ ls, nodupKeys x) (hc : mergeCow ls = some c) :
    idxLookup c.val k = lastLookup ls k := by
  cases ls with
  | nil => simp [mergeCow] at hc
  | cons m rest =>
    have h1 := mergeCow_val (m :: rest)
    rw [hc] at h1
    simp at h1
    rw [h1]
    have hrest : ∀ x ∈ rest, nodupKeys x := fun x hx => h x (List.mem_cons_of_mem m hx)
    rw [idxLookup_foldl_idxExtend rest m k hrest]
    cases hl : lastLookup rest k <;> simp [lastLookup, hl]

end MergeFold

section FirstWinsFold

variable {α : Type} {β : Type} [DecidableEq α]

theorem idxMem_iff (m : List (α × β)) (k : α) :
    idxMem m k = true ↔ k ∈ m.map Prod.fst := by
  induction m with
  | nil => simp [idxMem, idxLookup]
  | cons p m ih =>
    obtain ⟨a, b⟩ := p
    by_cases h : a = k
    · subst h
      simp [idxMem_cons]
    · rw [idxMem_cons, if_neg h]
      have h' : ¬k = a := fun hk => h hk.symm
      simp [List.mem_cons, h', ih]

/-- The inner loop of `Feature::activation_env` over one layer's map: insert
each binding whose key has not been seen yet, appending at the end. -/
theorem idxLookup_firstWins (x acc : List (α × β)) (k : α) :
    idxLookup (x.foldl (fun acc kv =>
        if idxMem acc kv.1 then acc else acc ++ [kv]) acc) k =
      match idxLookup acc k with
      | some v => some v
      | none => idxLookup x k := by
  induction x generalizing acc with
  | nil => cases hl : idxLookup acc k <;> simp [hl]
  | cons p x ih =>
    obtain ⟨a, b⟩ := p
    rw [List.foldl_cons, ih]
    by_cases hmem : idxMem acc a
    · rw [if_pos hmem]
      cases hl : idxLookup acc k with
      | some v => simp [hl]
      | none =>
        have hak : ¬a = k := by
          intro h
          subst h
          unfold idxMem at hmem
          rw [hl] at hmem
          simp at hmem
        simp [hl, hak]
    · rw [if_neg hmem]
      rw [idxLookup_append]
      cases hl : idxLookup acc k with
      | some v => simp [hl]
      | none =>
        by_cases hak : a = k
        · subst hak
          simp [hl]
        · simp [hl, hak]

theorem nodupKeys_firstWins (x acc : List (α × β)) (h : nodupKeys acc) :
    nodupKeys (x.foldl (fun acc kv =>
      if idxMem acc kv.1 then acc else acc ++ [kv]) acc) := by
  induction x generalizing acc with
  | nil => exact h
  | cons p x ih =>
    obtain ⟨a, b⟩ := p
    rw [List.foldl_cons]
    by_cases hmem : idxMem acc a
    · rw [if_pos hmem]
      exact ih acc h
    · rw [if_neg hmem]
      refine ih _ ?_
      unfold nodupKeys at h ⊢
      rw [List.map_append, List.nodup_append]
      refine ⟨h, List.nodup_singleton a, ?_⟩
      intro y hy hy'
      simp at hy'
      subst hy'
      exact hmem ((idxMem_iff acc y).mpr hy)

/-- The outer fold of `Feature::activation_env` over the layers, most
specific first: the first layer that defines a key wins. -/
theorem idxLookup_foldl_firstWins (envs : List (List (α × β)))
    (acc : List (α × β)) (k : α) :
    idxLookup (envs.foldl (fun acc x =>
        x.foldl (fun acc kv =>
          if idxMem acc kv.1 then acc else acc ++ [kv]) acc) acc) k =
      match idxLookup acc k with
      | some v => some v
      | none => firstLookup envs k := by
  induction envs generalizing acc with
  | nil => cases hl : idxLookup acc k <;> simp [hl, firstLookup]
  | cons x envs ih =>
    rw [List.foldl_cons, ih, idxLookup_firstWins]
    cases hl : idxLookup acc k with
    | some v => simp
    | none => cases hx : idxLookup x k <;> simp [firstLookup, hx]

theorem nodupKeys_foldl_firstWins (envs : List (List (α × β)))
    (acc : List (α × β)) (h : nodupKeys acc) :
    nodupKeys (envs.foldl (fun acc x =>
      x.foldl (fun acc kv =>
        if idxMem acc kv.1 then acc else acc ++ [kv]) acc) acc) := by
  induction envs generalizing acc with
  | nil => exact h
  | cons x envs ih => exact ih _ (nodupKeys_firstWins x acc h)

end FirstWinsFold

/-- Streaming a list of packages through an accumulating fold is the
concatenation of the per-package streams, in list order. -/
theorem foldl_append_eq_flatten {α β : Type} (f : α → List β) (ps : List α)
    (acc : List β) :
    ps.foldl (fun acc p => acc ++ f p) acc = acc ++ (ps.map f).flatten := by
  induction ps generalizing acc with
  | nil => simp
  | cons p ps ih => simp [ih, List.append_assoc]

/-! ## `crates/pixi_manifest/src/feature.rs` -/

/-- Modelled from the spec: the reserved default-feature identifier
(`consts::DEFAULT_FEATURE_NAME` lives in the `pixi_consts` crate, outside the
provided sources); the deserializer's error message fixes it as `default`. -/
def DEFAULT_FEATURE_NAME : String := "default"

/-- The name of a feature: either a string or default for the default
feature.  `deriving DecidableEq` models the derived `PartialEq`/`Eq`. -/
inductive FeatureName where
  | Default
  | Named (name : String)
deriving DecidableEq

/-- `FeatureName::name`: the name of the feature, or `none` for the default
feature. -/
def FeatureName.name : FeatureName → Option String
  | .Default => none
  | .Named name => some name

/-- `FeatureName::as_str`. -/
def FeatureName.as_str (f : FeatureName) : String :=
  f.name.getD DEFAULT_FEATURE_NAME

/-- `FeatureName::is_default`. -/
def FeatureName.is_default : FeatureName → Bool
  | .Default => true
  | .Named _ => false

/-- `Deserialize for FeatureName`: a string equal to the reserved name is
rejected, anything else becomes `Named`. -/
def FeatureName.deserialize (s : String) : Except String FeatureName :=
  if s = DEFAULT_FEATURE_NAME then
    .error "The name 'default' is reserved for the default feature"
  else .ok (.Named s)

/-- `From<&str> for FeatureName`: the reserved name maps to `Default`,
anything else to `Named`. -/
def FeatureName.fromStr (s : String) : FeatureName :=
  if s = DEFAULT_FEATURE_NAME then .Default else .Named s

/-- Lexicographic comparison of character lists by code point — the model of
Rust's `Ord for String` (byte-lexicographic, which agrees with code-point
order on the ASCII names at issue). -/
def charListLt : List Char → List Char → Bool
  | [], [] => false
  | [], _ :: _ => true
  | _ :: _, [] => false
  | a :: as, b :: bs =>
    if a.toNat < b.toNat then true
    else if b.toNat < a.toNat then false
    else charListLt as bs

/-- Rust's `Ord for String` on the string model. -/
def strLt (a b : String) : Bool := charListLt a.data b.data

/-- The derived `Ord`/`PartialOrd` on the enum (variant order first:
`Default` precedes every `Named`, `Named` values compare by their string). -/
def FeatureName.lt : FeatureName → FeatureName → Bool
  | .Default, .Default => false
  | .Default, .Named _ => true
  | .Named _, .Default => false
  | .Named a, .Named b => strLt a b

/-- The manual `Hash` impl feeds `self.as_str()` into the hasher; the hash is
therefore a function of this string. -/
def FeatureName.hashInput (f : FeatureName) : String :=
  f.as_str

/-- Payload placeholders for fields whose internals none of the claims
inspect. -/
abbrev PackageName := String
abbrev PixiSpec := String
abbrev Platform := String
abbrev PyPiPackageName := String
abbrev PyPiRequirement := String
abbrev PrioritizedChannel := String
abbrev ChannelPriority := String
abbrev SystemRequirements := String
abbrev PypiOptions := String

/-- The three dependency kinds (`SpecType` from `pixi_manifest`). -/
inductive SpecType where
  | Run
  | Host
  | Build
deriving DecidableEq

/-- Activation information of a target: optional script list and optional
environment-variable map. -/
structure Activation where
  scripts : Option (List String)
  env : Option (List (String × String))

/-- One configuration layer (`Target`): per-kind dependency maps (the
`dependencies: HashMap<SpecType, IndexMap<..>>` field, modelled as a
function to an optional insertion-ordered map), an optional second-ecosystem
dependency map, and optional activation.  The task map is irrelevant to
every claim and is omitted. -/
structure Target where
  dependencies : SpecType → Option (List (PackageName × PixiSpec))
  pypi_dependencies : Option (List (PyPiPackageName × PyPiRequirement))
  activation : Option Activation

/-- Modelled from the spec: `Targets` (from `crates/pixi_manifest/src/target.rs`,
not among the provided sources) is an ordered collection of
(platform-selector, Target) pairs plus one implicit default Target;
"selector matching is exact-platform, no partial/fuzzy matches". -/
structure Targets where
  default_target : Target
  specific : List (Platform × Target)

/-- Modelled from the spec: `Targets::resolve` "resolves, for a queried
platform, the applicable subset ordered from most- to least-specific";
"resolution must always include the default layer".  With exact-platform
selectors the matching platform-specific layers come first, the default
layer last; a `none` platform matches only the default layer. -/
def Targets.resolve (ts : Targets) (platform : Option Platform) : List Target :=
  match platform with
  | none => [ts.default_target]
  | some p => (ts.specific.filter (fun x => x.1 = p)).map Prod.snd ++ [ts.default_target]

/-- A feature: a named bundle of a `Targets` collection plus feature-wide
configuration. -/
structure Feature where
  name : FeatureName
  platforms : Option (List Platform)
  channels : Option (List PrioritizedChannel)
  channel_priority : Option ChannelPriority
  system_requirements : SystemRequirements
  pypi_options : Option PypiOptions
  targets : Targets

/-- `Feature::dependencies(spec_type, platform)` for a concrete dependency
kind: resolve the applicable layers, reverse them (least specific first),
keep the non-empty per-kind maps, and fold them with the extending
accumulator (`mergeCow`).  `Target::dependencies(Some(kind))` (from
`target.rs`, not among the provided sources) is modelled from the spec as
the borrowed per-kind map, which the fold's `None => Some(deps)` arm keeps
borrowed — exactly the `Cow` behaviour of the source fold. -/
def Feature.dependencies (f : Feature) (spec_type : SpecType)
    (platform : Option Platform) :
    Option (Cow (List (PackageName × PixiSpec))) :=
  mergeCow ((((f.targets.resolve platform).reverse.filterMap
    (fun t => t.dependencies spec_type)).filter (fun deps => !deps.isEmpty)))

/-- `Feature::pypi_dependencies(platform)`: same merge algebra over the
single second-ecosystem dependency map of each layer. -/
def Feature.pypi_dependencies (f : Feature) (platform : Option Platform) :
    Option (Cow (List (PyPiPackageName × PyPiRequirement))) :=
  mergeCow ((((f.targets.resolve platform).reverse.filterMap
    (fun t => t.pypi_dependencies)).filter (fun deps => !deps.isEmpty)))

/-- `Feature::activation_scripts(platform)`: the script list of the first
(most specific) applicable layer that defines one (`.next()` on the
iterator). -/
def Feature.activation_scripts (f : Feature) (platform : Option Platform) :
    Option (List String) :=
  (((f.targets.resolve platform).filterMap (fun t => t.activation)).filterMap
    (fun a => a.scripts)).head?

/-- `Feature::activation_env(platform)`: fold the layers' environment maps,
most specific first, inserting each key only when it has not been seen
yet (`if !acc.contains_key(k) { acc.insert(k.clone(), v.clone()) }`). -/
def Feature.activation_env (f : Feature) (platform : Option Platform) :
    List (String × String) :=
  (((f.targets.resolve platform).filterMap (fun t => t.activation)).filterMap
    (fun a => a.env)).foldl
      (fun acc x =>
        x.foldl (fun acc kv =>
          if idxMem acc kv.1 then acc else acc ++ [kv]) acc)
      []

/-! ## `src/environment.rs` -/

/-- Interpreter metadata reported by the transactional installer
(`rattler::install::PythonInfo`, an external collaborator): the fields the
pipeline consumes. -/
structure PythonInfo where
  short_version : String
  version : String
  path : String
  site_packages_path : String
deriving DecidableEq

/-- `PythonStatus`: how the interpreter in an environment changed across an
install operation. -/
inductive PythonStatus where
  | Changed (old new : PythonInfo)
  | Unchanged (info : PythonInfo)
  | Removed (old : PythonInfo)
  | Added (new : PythonInfo)
  | DoesNotExist
deriving DecidableEq

/-- `PythonStatus::from_transaction`, over the transaction's
`current_python_info` (previous) and `python_info` (new) fields; the guard
compares only the short version strings. -/
def PythonStatus.from_transaction
    (current_python_info python_info : Option PythonInfo) : PythonStatus :=
  match current_python_info, python_info with
  | some old, some new =>
    if old.short_version ≠ new.short_version then .Changed old new
    else .Unchanged new
  | none, some new => .Added new
  | some old, none => .Removed old
  | none, none => .DoesNotExist

/-- `Path::join` on the model of paths as strings. -/
def joinPath (root p : String) : String := root ++ "/" ++ p

/-- Opaque model of a `(PypiPackageData, PypiPackageEnvironmentData)` record;
`update_prefix_pypi` only tests the slice for emptiness. -/
abbrev PypiRecord := String

/-- The externally observable steps `update_prefix_pypi` performs:
purging tool-managed artifacts from a site-packages directory
(`uninstall_outdated_site_packages`) and delegating to the pypi installer
(`install_pypi::update_python_distributions`, identified here by the
interpreter path that is passed to it). -/
inductive PypiSyncStep where
  | uninstall_outdated (site_packages_path : String)
  | update_python_distributions (python_path : String)
deriving DecidableEq

/-- `update_prefix_pypi` reduced to its control flow: the sequence of purge /
sync steps it performs, as a function of the interpreter transition, the
desired pypi record set, the prefix root, and which paths exist on disk.
All arguments that are merely forwarded to the external installer are
dropped. -/
def update_prefix_pypi (root : String) (pypi_records : List PypiRecord)
    (status : PythonStatus) (pathExists : String → Bool) :
    List PypiSyncStep :=
  match status with
  | .Removed old =>
    let site_packages_path := joinPath root old.site_packages_path
    if pathExists site_packages_path then
      [.uninstall_outdated site_packages_path]
    else []
  | .Changed old new =>
    (if old.site_packages_path ≠ new.site_packages_path then
      let site_packages_path := joinPath root old.site_packages_path
      if pathExists site_packages_path then
        [.uninstall_outdated site_packages_path]
      else []
    else []) ++ [.update_python_distributions new.path]
  | .Unchanged info | .Added info =>
    if pypi_records.isEmpty then
      let site_packages_path := joinPath root info.site_packages_path
      if pathExists site_packages_path then
        [.uninstall_outdated site_packages_path]
      else []
    else [.update_python_distributions info.path]
  | .DoesNotExist => []

/-- Opaque digest values (`rattler_digest` hashes). -/
abbrev Sha256Digest := String
abbrev Md5Digest := String

/-- A package recorded in the lock file for one platform
(`rattler_lock::Package`), restricted to the fields the drift hash reads:
the location identifier, and per ecosystem the integrity digests
(conda) or the editable flag and extras selection (pypi). -/
inductive LockedPackage where
  | Conda (url_or_path : String) (sha256 : Option Sha256Digest)
      (md5 : Option Md5Digest)
  | Pypi (url_or_path : String) (is_editable : Bool) (extras : List String)
deriving DecidableEq

/-- One value fed to the streaming hasher (`Xxh3`); the digest is modelled as
the stream of fed values, which identifies hashes exactly when the streams
agree. -/
inductive HashInput where
  | url_or_path (s : String)
  | sha256 (h : Sha256Digest)
  | md5 (h : Md5Digest)
  | is_editable (b : Bool)
  | extras (e : List String)
deriving DecidableEq

/-- The values one package feeds to the hasher, in order: always the
location; for a conda package the sha256 if present, otherwise the md5 if
present, otherwise nothing; for a pypi package the editable flag then the
extras. -/
def packageHashInputs : LockedPackage → List HashInput
  | .Conda url_or_path sha256 md5 =>
    .url_or_path url_or_path ::
      (match sha256 with
       | some sha => [.sha256 sha]
       | none =>
         match md5 with
         | some m => [.md5 m]
         | none => [])
  | .Pypi url_or_path is_editable extras =>
    [.url_or_path url_or_path, .is_editable is_editable, .extras extras]

/-- `LockedEnvironmentHash`, modelled as the stream fed to the hasher. -/
structure LockedEnvironmentHash where
  digest : List HashInput
deriving DecidableEq

/-- `LockedEnvironmentHash::from_environment`, as a function of
`environment.packages(platform)` (the lock file's package list for the
platform, in stored order; `rattler_lock` is an external collaborator):
stream every package's hash inputs in list order; no packages for the
platform contribute nothing. -/
def LockedEnvironmentHash.from_environment
    (packages : Option (List LockedPackage)) : LockedEnvironmentHash :=
  ⟨match packages with
   | some ps => ps.foldl (fun acc package => acc ++ packageHashInputs package) []
   | none => []⟩

/-- `EnvironmentFile`: the persisted Environment Marker Record. -/
structure EnvironmentFile where
  manifest_path : String
  environment_name : String
  pixi_version : String
  environment_lock_file_hash : LockedEnvironmentHash
deriving DecidableEq

/-- Outcome of `std::fs::read_to_string`: contents, a not-found error, or any
other I/O error (carried as its message). -/
inductive ReadResult where
  | ok (contents : String)
  | notFound
  | err (e : String)
deriving DecidableEq

/-- `read_environment_file`, as a function of the read outcome and of the
JSON parser (`serde_json::from_str`, modelled as a parameter).  The first
component records whether the file was removed (`std::fs::remove_file`);
the second is the function's return value. -/
def read_environment_file (parse : String → Option EnvironmentFile)
    (read : ReadResult) : Bool × Except String (Option EnvironmentFile) :=
  match read with
  | .ok contents =>
    match parse contents with
    | some env_file => (false, .ok (some env_file))
    | none => (true, .ok none)
  | .notFound => (false, .ok none)
  | .err e => (true, .error e)

/-- Modelled from the spec: `consts::PREFIX_FILE_NAME` (from the
`pixi_consts` crate, outside the provided sources), the name of the
prefix-location marker file inside `conda-meta`. -/
def PREFIX_FILE_NAME : String := "pixi"

/-- `Path::parent().unwrap_or(path)` on the string model of paths. -/
def parentOf (p : String) : String :=
  let parts := p.splitOn "/"
  if parts.length ≤ 1 then p
  else String.intercalate "/" parts.dropLast

/-- Outcome of `verify_prefix_location_unchanged`: success, a propagated
I/O error, or the interactive `prefix_location_changed` path (carrying the
previous and current directories shown to the user). -/
inductive VerifyOutcome where
  | ok
  | ioError (e : String)
  | prompt (previous_dir current_dir : String)
deriving DecidableEq

/-- `verify_prefix_location_unchanged`, as a function of the read outcome of
the prefix file: not-found succeeds, any other read error is propagated,
contents that are a path prefix of the prefix file's own path succeed,
anything else reaches the interactive relocation prompt. -/
def verify_prefix_location_unchanged (environment_dir : String)
    (read : ReadResult) : VerifyOutcome :=
  let prefix_file := joinPath (joinPath environment_dir "conda-meta") PREFIX_FILE_NAME
  match read with
  | .notFound => .ok
  | .err e => .ioError e
  | .ok p =>
    if p.isPrefixOf prefix_file then .ok
    else .prompt (parentOf p) environment_dir

/-! ## Claim C2: interpreter-transition derivation -/

/-- Claim C2: `PythonStatus::from_transaction` compares previous and new
interpreter info by short version string only and realizes exactly the
5-row case table: both present with equal short version → `Unchanged(new)`;
both present with different short version → `Changed{old, new}`; absent
then present → `Added{new}`; present then absent → `Removed{old}`; both
absent → `DoesNotExist`. -/
theorem from_transaction_case_table (old new : PythonInfo) :
    (old.short_version = new.short_version →
      PythonStatus.from_transaction (some old) (some new) = .Unchanged new)
  ∧ (old.short_version ≠ new.short_version →
      PythonStatus.from_transaction (some old) (some new) = .Changed old new)
  ∧ PythonStatus.from_transaction none (some new) = .Added new
  ∧ PythonStatus.from_transaction (some old) none = .Removed old
  ∧ PythonStatus.from_transaction
      (none : Option PythonInfo) (none : Option PythonInfo) = .DoesNotExist := by
  refine ⟨?_, ?_, rfl, rfl, rfl⟩
  · intro h
    simp [PythonStatus.from_transaction, h]
  · intro h
    simp [PythonStatus.from_transaction, h]

/-- Witness for C2: an interpreter going from full version `3.10.1` to
`3.10.2` keeps the short version `3.10` and is classified `Unchanged`,
while `3.10` → `3.11` is classified `Changed`. -/
theorem from_transaction_case_table_witness :
    PythonStatus.from_transaction
      (some ⟨"3.10", "3.10.1", "bin/python3.10", "lib/python3.10/site-packages"⟩)
      (some ⟨"3.10", "3.10.2", "bin/python3.10", "lib/python3.10/site-packages"⟩)
      = .Unchanged ⟨"3.10", "3.10.2", "bin/python3.10", "lib/python3.10/site-packages"⟩
  ∧ PythonStatus.from_transaction
      (some ⟨"3.10", "3.10.1", "bin/python3.10", "lib/python3.10/site-packages"⟩)
      (some ⟨"3.11", "3.11.0", "bin/python3.11", "lib/python3.11/site-packages"⟩)
      = .Changed ⟨"3.10", "3.10.1", "bin/python3.10", "lib/python3.10/site-packages"⟩
          ⟨"3.11", "3.11.0", "bin/python3.11", "lib/python3.11/site-packages"⟩ :=
  ⟨(from_transaction_case_table _ _).1 rfl,
   (from_transaction_case_table _ _).2.1 (by decide)⟩

/-! ## Claim C3: second-ecosystem sync gating -/

/-- Claim C3: `update_prefix_pypi` is gated entirely by the interpreter
transition.  `Removed{old}` purges the old interpreter's site-packages (when
that directory exists — a non-existent directory holds no artifacts) and
never syncs; `Changed{old,new}` purges first exactly when the site-packages
subpath differs (and the old directory exists), then syncs with `new`;
`Unchanged`/`Added` with an empty desired pypi set purges and stops, with a
non-empty set it delegates to the installer; `DoesNotExist` is a no-op. -/
theorem update_prefix_pypi_gating (root : String) (recs : List PypiRecord)
    (ex : String → Bool) (old new info : PythonInfo) :
    (update_prefix_pypi root recs (.Removed old) ex =
      if ex (joinPath root old.site_packages_path) then
        [.uninstall_outdated (joinPath root old.site_packages_path)]
      else [])
  ∧ (∀ q, PypiSyncStep.update_python_distributions q ∉
      update_prefix_pypi root recs (.Removed old) ex)
  ∧ (update_prefix_pypi root recs (.Changed old new) ex =
      (if old.site_packages_path ≠ new.site_packages_path then
        if ex (joinPath root old.site_packages_path) then
          [.uninstall_outdated (joinPath root old.site_packages_path)]
        else []
      else []) ++ [.update_python_distributions new.path])
  ∧ (old.site_packages_path = new.site_packages_path →
      update_prefix_pypi root recs (.Changed old new) ex =
        [.update_python_distributions new.path])
  ∧ (recs = [] → update_prefix_pypi root recs (.Unchanged info) ex =
      if ex (joinPath root info.site_packages_path) then
        [.uninstall_outdated (joinPath root info.site_packages_path)]
      else [])
  ∧ (recs = [] → update_prefix_pypi root recs (.Added info) ex =
      if ex (joinPath root info.site_packages_path) then
        [.uninstall_outdated (joinPath root info.site_packages_path)]
      else [])
  ∧ (recs ≠ [] → update_prefix_pypi root recs (.Unchanged info) ex =
      [.update_python_distributions info.path])
  ∧ (recs ≠ [] → update_prefix_pypi root recs (.Added info) ex =
      [.update_python_distributions info.path])
  ∧ update_prefix_pypi root recs .DoesNotExist ex = [] := by
  refine ⟨rfl, ?_, rfl, ?_, ?_, ?_, ?_, ?_, rfl⟩
  · intro q
    show PypiSyncStep.update_python_distributions q ∉
      (if ex (joinPath root old.site_packages_path) then
        [PypiSyncStep.uninstall_outdated (joinPath root old.site_packages_path)]
      else [])
    split <;> simp
  · intro h
    simp [update_prefix_pypi, h]
  · intro h
    simp [update_prefix_pypi, h]
  · intro h
    simp [update_prefix_pypi, h]
  · intro h
    simp [update_prefix_pypi, List.isEmpty_iff, h]
  · intro h
    simp [update_prefix_pypi, List.isEmpty_iff, h]

/-- Witness for C3: with a prefix root `/p`, an interpreter changing from
short version 3.10 to 3.11 with differing site-packages subpaths (and an
existing old directory) purges the old directory and then syncs with the
new interpreter; an unchanged interpreter with an empty desired pypi set
only purges. -/
theorem update_prefix_pypi_gating_witness :
    update_prefix_pypi "/p" ["numpy"]
      (.Changed ⟨"3.10", "3.10.1", "bin/python3.10", "lib/python3.10/site-packages"⟩
        ⟨"3.11", "3.11.0", "bin/python3.11", "lib/python3.11/site-packages"⟩)
      (fun _ => true)
      = [.uninstall_outdated "/p/lib/python3.10/site-packages",
         .update_python_distributions "bin/python3.11"]
  ∧ update_prefix_pypi "/p" []
      (.Unchanged ⟨"3.10", "3.10.1", "bin/python3.10", "lib/python3.10/site-packages"⟩)
      (fun _ => true)
      = [.uninstall_outdated "/p/lib/python3.10/site-packages"] := by
  constructor
  · rw [(update_prefix_pypi_gating "/p" ["numpy"] (fun _ => true)
      ⟨"3.10", "3.10.1", "bin/python3.10", "lib/python3.10/site-packages"⟩
      ⟨"3.11", "3.11.0", "bin/python3.11", "lib/python3.11/site-packages"⟩
      ⟨"3.10", "3.10.1", "bin/python3.10", "lib/python3.10/site-packages"⟩).2.2.1]
    decide
  · exact (update_prefix_pypi_gating "/p" [] (fun _ => true)
      ⟨"3.10", "3.10.1", "bin/python3.10", "lib/python3.10/site-packages"⟩
      ⟨"3.11", "3.11.0", "bin/python3.11", "lib/python3.11/site-packages"⟩
      ⟨"3.10", "3.10.1", "bin/python3.10", "lib/python3.10/site-packages"⟩).2.2.2.2.1 rfl

/-! ## Claim C4: the drift hash -/

/-- Claim C4: `LockedEnvironmentHash::from_environment` is a deterministic,
order-sensitive digest over the platform's packages in lock-file stored
order: the hash is exactly the concatenation, in list order, of each
package's hash inputs — always the location, then for a conda package the
sha256 digest if present, else the md5 digest if present, else nothing, and
for a pypi package the editable flag and the extras; reordering two distinct
packages changes the hash. -/
theorem from_environment_digest (ps : List LockedPackage) (u : String)
    (s : Sha256Digest) (m : Md5Digest) (e : Bool) (ext : List String) :
    LockedEnvironmentHash.from_environment (some ps) =
      ⟨(ps.map packageHashInputs).flatten⟩
  ∧ packageHashInputs (.Conda u (some s) (some m)) = [.url_or_path u, .sha256 s]
  ∧ packageHashInputs (.Conda u (some s) none) = [.url_or_path u, .sha256 s]
  ∧ packageHashInputs (.Conda u none (some m)) = [.url_or_path u, .md5 m]
  ∧ packageHashInputs (.Conda u none none) = [.url_or_path u]
  ∧ packageHashInputs (.Pypi u e ext) =
      [.url_or_path u, .is_editable e, .extras ext]
  ∧ LockedEnvironmentHash.from_environment
      (some [.Conda "https://c/pkg-a" none none, .Conda "https://c/pkg-b" none none])
      ≠ LockedEnvironmentHash.from_environment
      (some [.Conda "https://c/pkg-b" none none, .Conda "https://c/pkg-a" none none]) := by
  refine ⟨?_, rfl, rfl, rfl, rfl, rfl, by decide⟩
  show LockedEnvironmentHash.mk
    (ps.foldl (fun acc package => acc ++ packageHashInputs package) []) = _
  rw [foldl_append_eq_flatten]
  rfl

/-- Witness for C4: hashing the same two-package list twice yields the same
hash (the digest is a function of the ordered package list alone). -/
theorem from_environment_digest_witness :
    LockedEnvironmentHash.from_environment
      (some [.Conda "https://c/pkg-a" none none,
             .Pypi "https://pypi/pkg-b" false ["extra1"]]) =
      ⟨([LockedPackage.Conda "https://c/pkg-a" none none,
         LockedPackage.Pypi "https://pypi/pkg-b" false ["extra1"]].map
          packageHashInputs).flatten⟩ :=
  (from_environment_digest _ "" "" "" false []).1

/-! ## Claim C9: self-healing of corrupt marker records -/

/-- Counterexample to C9 as stated: an unreadable record does not always
self-heal silently.  When `std::fs::read_to_string` fails with an error
other than not-found (here: permission denied), `read_environment_file`
deletes the file but still returns the error to the caller, and
`verify_prefix_location_unchanged` propagates the error without deleting
anything — neither call succeeds as if the file were absent. -/
theorem marker_corruption_counterexample :
    read_environment_file (fun _ => none) (.err "permission denied")
      = (true, .error "permission denied")
  ∧ verify_prefix_location_unchanged "/proj/.pixi/envs/default"
      (.err "permission denied") = .ioError "permission denied" :=
  ⟨rfl, rfl⟩

/-- Claim C9, amended: a *malformed* (unparseable) Environment Marker Record
self-heals — `read_environment_file` deletes it and succeeds as if it were
absent — and a missing record is treated as absent by both functions.  An
*unreadable* record (I/O error other than not-found) does not:
`read_environment_file` deletes the file but propagates the error, and
`verify_prefix_location_unchanged` propagates the error without deleting. -/
theorem marker_corruption_self_heal
    (parse : String → Option EnvironmentFile) (contents e dir : String) :
    read_environment_file parse .notFound = (false, .ok none)
  ∧ (parse contents = none →
      read_environment_file parse (.ok contents) = (true, .ok none))
  ∧ (∀ f, parse contents = some f →
      read_environment_file parse (.ok contents) = (false, .ok (some f)))
  ∧ read_environment_file parse (.err e) = (true, .error e)
  ∧ verify_prefix_location_unchanged dir (.err e) = .ioError e
  ∧ verify_prefix_location_unchanged dir .notFound = .ok := by
  refine ⟨rfl, ?_, ?_, rfl, rfl, rfl⟩
  · intro h
    simp [read_environment_file, h]
  · intro f h
    simp [read_environment_file, h]

/-- Witness for C9 (amended): a record whose contents do not parse as JSON is
removed and reported as absent, without an error. -/
theorem marker_corruption_self_heal_witness :
    read_environment_file (fun _ => none) (.ok "not valid json")
      = (true, .ok none) :=
  (marker_corruption_self_heal (fun _ => none) "not valid json" "" "").2.1 rfl

/-! ## Claim C8: the reserved default-feature identifier -/

/-- Claim C8: the reserved default-feature identifier can never be produced
as a `FeatureName::Named` value.  Deserialization rejects the exact reserved
string with an error and never yields `Named(reserved)`; the `From<&str>`
conversion maps the reserved string to `Default` and never yields
`Named(reserved)` either. -/
theorem featureName_reserved_never_named :
    FeatureName.deserialize DEFAULT_FEATURE_NAME =
      .error "The name 'default' is reserved for the default feature"
  ∧ (∀ s, FeatureName.deserialize s ≠ .ok (.Named DEFAULT_FEATURE_NAME))
  ∧ FeatureName.fromStr DEFAULT_FEATURE_NAME = .Default
  ∧ (∀ s, FeatureName.fromStr s ≠ .Named DEFAULT_FEATURE_NAME) := by
  refine ⟨?_, ?_, ?_, ?_⟩
  · simp [FeatureName.deserialize]
  · intro s h
    by_cases hs : s = DEFAULT_FEATURE_NAME
    · simp [FeatureName.deserialize, hs] at h
    · simp [FeatureName.deserialize, hs] at h
  · simp [FeatureName.fromStr]
  · intro s h
    by_cases hs : s = DEFAULT_FEATURE_NAME
    · simp [FeatureName.fromStr, hs] at h
    · simp [FeatureName.fromStr, hs] at h

/-- Witness for C8: deserializing the reserved string fails, deserializing
and converting an ordinary name never produces `Named("default")`. -/
theorem featureName_reserved_never_named_witness :
    FeatureName.deserialize "default" =
      .error "The name 'default' is reserved for the default feature"
  ∧ FeatureName.deserialize "lint" ≠ .ok (.Named "default")
  ∧ FeatureName.fromStr "default" = .Default
  ∧ FeatureName.fromStr "lint" ≠ .Named "default" :=
  ⟨featureName_reserved_never_named.1,
   featureName_reserved_never_named.2.1 "lint",
   featureName_reserved_never_named.2.2.1,
   featureName_reserved_never_named.2.2.2 "lint"⟩

/-! ## Claim C10: FeatureName equality, hash, and ordering -/

/-- Counterexample to C10 as stated: the derived ordering compares the
variant first, not the normalized string.  `Default` sorts before
`Named("abc")` although its normalized string `"default"` sorts after
`"abc"`; and the (unreachable) value `Named("default")` is structurally
unequal to `Default` although both normalize to the same string. -/
theorem featureName_ordering_counterexample :
    FeatureName.lt .Default (.Named "abc") = true
  ∧ strLt (FeatureName.as_str .Default) (FeatureName.as_str (.Named "abc")) = false
  ∧ FeatureName.Default ≠ FeatureName.Named "default"
  ∧ FeatureName.as_str .Default = FeatureName.as_str (.Named "default") := by
  refine ⟨rfl, by decide, by decide, rfl⟩

/-- Claim C10, amended: the hash operates on the normalized string form (the
`Hash` impl feeds exactly `as_str()` to the hasher); the derived equality
agrees with normalized-string equality for every pair of values other than
the unconstructible `Named("default")`; but the derived ordering is
variant-first — `Default` precedes every `Named` value, and only `Named`
values compare by their string. -/
theorem featureName_eq_hash_ord (a b : FeatureName) (x y : String) :
    FeatureName.hashInput a = a.as_str
  ∧ (a ≠ .Named DEFAULT_FEATURE_NAME → b ≠ .Named DEFAULT_FEATURE_NAME →
      (a = b ↔ a.as_str = b.as_str))
  ∧ FeatureName.lt (.Named x) (.Named y) = strLt x y
  ∧ FeatureName.lt .Default (.Named x) = true
  ∧ FeatureName.lt a .Default = false := by
  refine ⟨rfl, ?_, rfl, rfl, ?_⟩
  · intro ha hb
    cases a with
    | Default =>
      cases b with
      | Default => simp
      | Named t =>
        have ht : t ≠ DEFAULT_FEATURE_NAME := fun h => hb (by rw [h])
        constructor
        · intro h
          exact absurd h (by simp)
        · intro h
          exact absurd h.symm (by simpa [FeatureName.as_str, FeatureName.name] using ht)
    | Named s =>
      have hs : s ≠ DEFAULT_FEATURE_NAME := fun h => ha (by rw [h])
      cases b with
      | Default =>
        constructor
        · intro h
          exact absurd h (by simp)
        · intro h
          exact absurd h (by simpa [FeatureName.as_str, FeatureName.name] using hs)
      | Named t =>
        simp [FeatureName.as_str, FeatureName.name]
  · cases a <;> rfl

/-- Witness for C10 (amended): equality agrees with normalized-string
equality on ordinary values. -/
theorem featureName_eq_hash_ord_witness :
    (FeatureName.Default = FeatureName.Named "lint" ↔
      FeatureName.as_str .Default = FeatureName.as_str (.Named "lint")) :=
  (featureName_eq_hash_ord .Default (.Named "lint") "" "").2.1
    (by decide) (by decide)

/-! ## Claim C1: the dependency merge -/

/-- Claim C1: `Feature::dependencies` merges the applicable target layers by
folding them from least specific to most specific while extending an
accumulator map, so each key takes its value from the most specific
contributing (non-empty) layer — the first layer, in most-specific-first
resolution order, whose per-kind map contains the key; and it returns no
data exactly when no applicable layer defines anything (a non-empty map)
for that kind. -/
theorem feature_dependencies_merge (f : Feature) (s : SpecType)
    (p : Option Platform) (k : PackageName)
    (hnd : ∀ t ∈ f.targets.resolve p, ∀ d, t.dependencies s = some d →
      nodupKeys d) :
    (f.dependencies s p = none ↔
      ∀ t ∈ f.targets.resolve p, ∀ d, t.dependencies s = some d → d = [])
  ∧ (∀ c, f.dependencies s p = some c →
      idxLookup c.val k =
        firstLookup (((f.targets.resolve p).filterMap
          (fun t => t.dependencies s)).filter (fun d => !d.isEmpty)) k) := by
  have hL : (((f.targets.resolve p).reverse.filterMap
        (fun t => t.dependencies s)).filter (fun d => !d.isEmpty)) =
      (((f.targets.resolve p).filterMap
        (fun t => t.dependencies s)).filter (fun d => !d.isEmpty)).reverse := by
    rw [List.filterMap_reverse, List.filter_reverse]
  constructor
  · show mergeCow _ = none ↔ _
    rw [mergeCow_eq_none_iff, hL, List.reverse_eq_nil_iff,
      List.filter_eq_nil_iff]
    constructor
    · intro h t ht d hd
      have hde := h d (List.mem_filterMap.mpr ⟨t, ht, hd⟩)
      simpa [List.isEmpty_iff] using hde
    · intro h d hd
      obtain ⟨t, ht, hdep⟩ := List.mem_filterMap.mp hd
      simp [List.isEmpty_iff, h t ht d hdep]
  · intro c hc
    have hc' : mergeCow ((((f.targets.resolve p).filterMap
        (fun t => t.dependencies s)).filter
          (fun d => !d.isEmpty)).reverse) = some c := by
      rw [← hL]
      exact hc
    have hnodups : ∀ x ∈ (((f.targets.resolve p).filterMap
        (fun t => t.dependencies s)).filter (fun d => !d.isEmpty)).reverse,
        nodupKeys x := by
      intro x hx
      rw [List.mem_reverse] at hx
      obtain ⟨t, ht, hdep⟩ := List.mem_filterMap.mp (List.mem_of_mem_filter hx)
      exact hnd t ht x hdep
    rw [mergeCow_lookup _ c k hnodups hc', lastLookup_reverse]

/-! ## Claim C5: borrow on a single layer, own on a merge -/

/-- Claim C5: when exactly one applicable layer contributes (the fold sees a
single non-empty map), `Feature::dependencies` and
`Feature::pypi_dependencies` return that layer's map as a borrowed
reference; when more than one layer contributes, they return a freshly
merged owned map. -/
theorem feature_dependencies_cow (f : Feature) (s : SpecType)
    (p : Option Platform) :
    (∀ m, (((f.targets.resolve p).reverse.filterMap
        (fun t => t.dependencies s)).filter (fun d => !d.isEmpty)) = [m] →
      f.dependencies s p = some (.borrowed m))
  ∧ (∀ m₁ m₂ rest, (((f.targets.resolve p).reverse.filterMap
        (fun t => t.dependencies s)).filter (fun d => !d.isEmpty)) =
          m₁ :: m₂ :: rest →
      ∃ d, f.dependencies s p = some (.owned d))
  ∧ (∀ m, (((f.targets.resolve p).reverse.filterMap
        (fun t => t.pypi_dependencies)).filter (fun d => !d.isEmpty)) = [m] →
      f.pypi_dependencies p = some (.borrowed m))
  ∧ (∀ m₁ m₂ rest, (((f.targets.resolve p).reverse.filterMap
        (fun t => t.pypi_dependencies)).filter (fun d => !d.isEmpty)) =
          m₁ :: m₂ :: rest →
      ∃ d, f.pypi_dependencies p = some (.owned d)) := by
  refine ⟨?_, ?_, ?_, ?_⟩
  · intro m h
    show mergeCow _ = _
    rw [h]
    exact mergeCow_singleton m
  · intro m₁ m₂ rest h
    show ∃ d, mergeCow _ = some (.owned d)
    rw [h]
    exact mergeCow_owned m₁ m₂ rest
  · intro m h
    show mergeCow _ = _
    rw [h]
    exact mergeCow_singleton m
  · intro m₁ m₂ rest h
    show ∃ d, mergeCow _ = some (.owned d)
    rw [h]
    exact mergeCow_owned m₁ m₂ rest

/-! ## Claim C6: activation scripts never merge -/

/-- Claim C6: `Feature::activation_scripts` never merges — it returns the
script list of the first (most specific) applicable layer that defines
scripts, ignoring every remaining layer, and returns `none` exactly when no
applicable layer defines scripts. -/
theorem feature_activation_scripts_first (f : Feature) (p : Option Platform) :
    (f.activation_scripts p = none ↔
      ∀ t ∈ f.targets.resolve p, t.activation.bind Activation.scripts = none)
  ∧ (∀ pre t rest s, f.targets.resolve p = pre ++ t :: rest →
      (∀ t' ∈ pre, t'.activation.bind Activation.scripts = none) →
      t.activation.bind Activation.scripts = some s →
      f.activation_scripts p = some s) := by
  have hcomp : ∀ (l : List Target),
      (l.filterMap (fun t => t.activation)).filterMap (fun a => a.scripts) =
        l.filterMap (fun t => t.activation.bind Activation.scripts) := by
    intro l
    rw [List.filterMap_filterMap]
  constructor
  · show ((((f.targets.resolve p).filterMap _).filterMap _)).head? = none ↔ _
    rw [hcomp, List.head?_eq_none_iff, List.filterMap_eq_nil_iff]
  · intro pre t rest s hres hpre hs
    show ((((f.targets.resolve p).filterMap _).filterMap _)).head? = some s
    rw [hcomp, hres, List.filterMap_append]
    have hnil : pre.filterMap (fun t => t.activation.bind Activation.scripts)
        = [] := List.filterMap_eq_nil_iff.mpr hpre
    rw [hnil, List.nil_append, List.filterMap_cons, hs]
    rfl

/-! ## Claim C7: activation environment variables merge, most specific wins -/

/-- Claim C7: `Feature::activation_env` merges environment variables across
all applicable layers, most specific first: every key takes its value from
the first (most specific) layer that defines it, and each key appears at
most once in the result. -/
theorem feature_activation_env_merge (f : Feature) (p : Option Platform)
    (k : String) :
    idxLookup (f.activation_env p) k =
      firstLookup (((f.targets.resolve p).filterMap
        (fun t => t.activation)).filterMap (fun a => a.env)) k
  ∧ nodupKeys (f.activation_env p) := by
  constructor
  · show idxLookup ((((f.targets.resolve p).filterMap _).filterMap _).foldl
      _ []) k = _
    rw [idxLookup_foldl_firstWins]
    rfl
  · exact nodupKeys_foldl_firstWins _ [] (by simp [nodupKeys])

/-! ## Witness fixtures: a concrete feature with a platform layer -/

/-- A per-kind dependency table defining only run dependencies. -/
def witRunOnly (deps : List (PackageName × PixiSpec)) :
    SpecType → Option (List (PackageName × PixiSpec))
  | .Run => some deps
  | .Host => none
  | .Build => none

/-- Default layer of the witness feature. -/
def witDefaultTarget : Target where
  dependencies := witRunOnly [("foo", "==1.0"), ("bar", "==9.9")]
  pypi_dependencies := some [("requests", "*")]
  activation := some
    { scripts := some ["run.bat"]
      env := some [("KEY", "default-value"), ("ONLY_DEFAULT", "yes")] }

/-- Platform-specific layer of the witness feature. -/
def witLinuxTarget : Target where
  dependencies := witRunOnly [("foo", "==2.0")]
  pypi_dependencies := none
  activation := some
    { scripts := some ["linux-64.bat"]
      env := some [("KEY", "linux-value")] }

/-- A concrete feature with a default layer and one `linux-64` layer. -/
def witFeature : Feature where
  name := .Default
  platforms := none
  channels := none
  channel_priority := none
  system_requirements := ""
  pypi_options := none
  targets :=
    { default_target := witDefaultTarget
      specific := [("linux-64", witLinuxTarget)] }

/-- Witness for C1: resolving `foo` for `linux-64` merges the default layer
(`foo ==1.0, bar ==9.9`) under the platform layer (`foo ==2.0`); the merged
map holds the platform layer's value for `foo`, which is the value of the
most specific contributing layer. -/
theorem feature_dependencies_merge_witness :
    idxLookup (Cow.val (.owned [("foo", "==2.0"), ("bar", "==9.9")])) "foo" =
      firstLookup (((witFeature.targets.resolve (some "linux-64")).filterMap
        (fun t => t.dependencies SpecType.Run)).filter
          (fun d => !d.isEmpty)) "foo" :=
  (feature_dependencies_merge witFeature .Run (some "linux-64") "foo"
    (by
      intro t ht d hd
      simp [witFeature, Targets.resolve, witDefaultTarget, witLinuxTarget] at ht
      rcases ht with h | h <;> subst h <;>
        simp [witDefaultTarget, witLinuxTarget, witRunOnly] at hd <;>
        subst hd <;> simp [nodupKeys])).2
    (.owned [("foo", "==2.0"), ("bar", "==9.9")]) (by decide)

/-- Witness for C5: with no platform only the default layer contributes, and
both accessors return that single layer's map borrowed. -/
theorem feature_dependencies_cow_witness :
    witFeature.dependencies .Run none =
      some (.borrowed [("foo", "==1.0"), ("bar", "==9.9")])
  ∧ witFeature.pypi_dependencies none = some (.borrowed [("requests", "*")]) :=
  ⟨(feature_dependencies_cow witFeature .Run none).1
      [("foo", "==1.0"), ("bar", "==9.9")] (by decide),
   (feature_dependencies_cow witFeature .Run none).2.2.1
      [("requests", "*")] (by decide)⟩

/-- Witness for C6: for `linux-64` the platform layer's script list is
returned and the default layer's `run.bat` is ignored entirely. -/
theorem feature_activation_scripts_first_witness :
    witFeature.activation_scripts (some "linux-64") = some ["linux-64.bat"] :=
  (feature_activation_scripts_first witFeature (some "linux-64")).2
    [] witLinuxTarget [witDefaultTarget] ["linux-64.bat"]
    rfl (by simp) rfl

end PixiRust
